import Mathlib

/-!
Verification of the process/thread-management core of the Nanvix microkernel
excerpt: condition variables (`src/kernel/pm/cond.c`), the thread table
(`src/kernel/pm/thread.c`), the process table (`src/kernel/pm/process.c`),
the user-level mutex (`src/libs/nanvix/mutex.c`) and the kernel-call
dispatch bridge (`src/kernel/kcall/mod.c`).

Shallow embedding: the C tables become Lean lists, pointer-based intrusive
queues become lists of process ids, and the externally supplied collaborators
(virtual-memory creation, the low-level thread module used by
`process_create`, semaphores) become oracle parameters or event logs.
-/

/-- Modelled from the spec: the errno constants come from `<errno.h>`, which is
not part of this repository excerpt; the standard POSIX values are used. The
claims proved below depend only on these constants being positive. -/
def EAGAIN : Int := 11

/-- Modelled from the spec: standard POSIX value of `EINVAL` (see `EAGAIN`). -/
def EINVAL : Int := 22

/-! ## Condition variables (`src/src/kernel/pm/cond.c`)

A condition variable is `{ queue, lock }` where `queue` is an intrusive
singly-linked list of processes chained by their `next` field.  We model the
queue as a `List Int` of process ids, head of the list = head of the C list
(`cond->queue`).  The spinlock-protected section of each function becomes one
atomic function on the queue. -/

/-- The enqueue step of `cond_wait`:
`curr_process->next = cond->queue; cond->queue = curr_process;`
i.e. the calling process is pushed onto the *front* of the queue. -/
def cond_wait_enqueue (curr : Int) (queue : List Int) : List Int :=
  curr :: queue

/-- Enqueue a whole sequence of processes, in the order of the list:
the process at the head of `ps` performs its `cond_wait` enqueue step first. -/
def cond_wait_enqueue_all (ps : List Int) (queue : List Int) : List Int :=
  ps.foldl (fun q p => cond_wait_enqueue p q) queue

/-- The loop of `cond_broadcast`:
`while (cond->queue != NULL) { process_wakeup(cond->queue); cond->queue = cond->queue->next; }`
Returns the list of processes passed to `process_wakeup`, in call order,
paired with the final value of `cond->queue`. -/
def cond_broadcast (queue : List Int) : List Int × List Int :=
  match queue with
  | [] => ([], [])
  | p :: rest =>
      let r := cond_broadcast rest
      (p :: r.1, r.2)

/-! ## Kernel-call dispatch bridge (`src/src/kernel/kcall/mod.c`) -/

/-- The global scoreboard: `static volatile struct { ... } scoreboard;`.
All fields are `word_t` (unsigned machine words), modelled as `Nat`. -/
structure Scoreboard where
  kcall_nr : Nat
  arg0 : Nat
  arg1 : Nat
  arg2 : Nat
  arg3 : Nat
  arg4 : Nat
  ret : Nat
deriving DecidableEq, Repr

/-- The scoreboard is a zero-initialized static variable. -/
def scoreboard_zero : Scoreboard :=
  ⟨0, 0, 0, 0, 0, 0, 0⟩

/-- Semaphore operations performed by the bridge, in program order. -/
inductive SemEv where
  | upKernel
  | downKernel
  | upUser
  | downUser
deriving DecidableEq, Repr

/-- One iteration of the `handle_syscall` loop:
`semaphore_down(kernel_semaphore); semaphore_up(user_semaphore);`.
It never touches the scoreboard (in particular it never writes
`scoreboard.ret`). -/
def handle_syscall_iter (sb : Scoreboard) : Scoreboard × List SemEv :=
  (sb, [SemEv.downKernel, SemEv.upUser])

/-- `do_kcall(arg0..arg4, kcall_nr)`.  The `switch` over the fast-path call
numbers (`NR_void0` … `NR_excpresume`) is abstracted by the oracle `fast`:
`fast nr = some r` means `nr` has a `case` in the table and its handler call
returns `r`; `fast nr = none` means `nr` falls to the `default:` branch.
The result is the new scoreboard, the semaphore operations performed (in
order), and the value of the local variable `ret` that the function returns.
Note that `ret` is initialized to `-1` and the `default:` branch never
assigns it. -/
def do_kcall (fast : Nat → Option Int) (sb : Scoreboard)
    (arg0 arg1 arg2 arg3 arg4 kcall_nr : Nat) :
    Scoreboard × List SemEv × Int :=
  match fast kcall_nr with
  | some r => (sb, [], r)
  | none =>
      let sb' : Scoreboard :=
        { kcall_nr := kcall_nr, arg0 := arg0, arg1 := arg1, arg2 := arg2,
          arg3 := arg3, arg4 := arg4, ret := sb.ret }
      (sb', [SemEv.upKernel, SemEv.downUser], -1)

/-! ## Theorems for claims C1, C4, C5 -/

/-- C1 counterexample: for call number 999 (not in the dispatch table) with
arguments 1,2,3,4,5 starting from the zero-initialized scoreboard, the value
`do_kcall` returns is `-1`, which is *not* the scoreboard's result field
(which is still `0`): the claim that the returned value is the scoreboard's
result field is false. -/
theorem C1_counterexample :
    ¬ ((do_kcall (fun _ => none) scoreboard_zero 1 2 3 4 5 999).2.2 =
       ((do_kcall (fun _ => none) scoreboard_zero 1 2 3 4 5 999).1.ret : Int)) := by
  decide

/-- C1 (amended): for every call number not present in the fast-path dispatch
table, `do_kcall` copies the call number and all five arguments into the
global scoreboard, signals the out-of-line handler (semaphore up on the
kernel semaphore), blocks (semaphore down on the user semaphore), and then
returns the constant `-1`; the scoreboard's result field is left unchanged
and is never read. -/
theorem C1_kcall_slowpath (fast : Nat → Option Int) (sb : Scoreboard)
    (a0 a1 a2 a3 a4 nr : Nat) (h : fast nr = none) :
    do_kcall fast sb a0 a1 a2 a3 a4 nr =
      ({ kcall_nr := nr, arg0 := a0, arg1 := a1, arg2 := a2, arg3 := a3,
         arg4 := a4, ret := sb.ret },
       [SemEv.upKernel, SemEv.downUser], -1) := by
  unfold do_kcall
  rw [h]

/-- Witness for `C1_kcall_slowpath` at a concrete input. -/
theorem C1_kcall_slowpath_witness :
    do_kcall (fun _ => none) scoreboard_zero 1 2 3 4 5 999 =
      ({ kcall_nr := 999, arg0 := 1, arg1 := 2, arg2 := 3, arg3 := 4,
         arg4 := 5, ret := 0 },
       [SemEv.upKernel, SemEv.downUser], -1) :=
  C1_kcall_slowpath (fun _ => none) scoreboard_zero 1 2 3 4 5 999 rfl

/-- C4 counterexample: process 1 enqueues first, then process 2; in the
resulting queue process 1 does *not* appear earlier than process 2 (the
enqueue step prepends, so the later waiter is at the head). -/
theorem C4_counterexample :
    ¬ ((cond_wait_enqueue 2 (cond_wait_enqueue 1 [])).indexOf 1 <
       (cond_wait_enqueue 2 (cond_wait_enqueue 1 [])).indexOf 2) := by
  decide

/-- C4 (amended): the condvar queue is kept in *reverse* insertion order:
`cond_wait`'s enqueue step pushes the caller onto the front of the queue, so
after any sequence of enqueues onto an initially observed queue, the queue is
the reverse of the enqueue order (a unit that enqueues later appears closer
to the head than any unit that enqueued earlier). -/
theorem C4_condvar_queue_lifo (ps : List Int) (queue : List Int) :
    cond_wait_enqueue_all ps queue = ps.reverse ++ queue := by
  induction ps generalizing queue with
  | nil => simp [cond_wait_enqueue_all]
  | cons p rest ih =>
      simp only [cond_wait_enqueue_all, List.foldl_cons, List.reverse_cons]
      rw [show List.foldl (fun q x => cond_wait_enqueue x q)
            (cond_wait_enqueue p queue) rest =
          cond_wait_enqueue_all rest (cond_wait_enqueue p queue) from rfl]
      rw [ih]
      simp [cond_wait_enqueue]

/-- C5: `cond_broadcast` calls `process_wakeup` on every unit that is in the
queue when it acquires the condvar's lock (in queue order), and when it
returns the queue is empty. -/
theorem C5_cond_broadcast_wakes_all (queue : List Int) :
    (cond_broadcast queue).1 = queue ∧ (cond_broadcast queue).2 = [] := by
  induction queue with
  | nil => exact ⟨rfl, rfl⟩
  | cons p rest ih =>
      refine ⟨?_, ?_⟩
      · simp only [cond_broadcast]
        exact congrArg (p :: ·) ih.1
      · simp only [cond_broadcast]
        exact ih.2

/-! ## Thread table (`src/src/kernel/pm/thread.c`)

`struct thread threads[THREAD_MAX]` becomes a `List Thread`; `THREAD_MAX` is
the length of the list.  The spinlock `lock_tm` serializes the table
operations, so each operation is one atomic function on the table state. -/

/-- Thread states. -/
inductive ThreadState where
  | NOT_STARTED
  | STARTED
  | RUNNING
  | TERMINATED
deriving DecidableEq, Repr

/-- One entry of the thread table.  The start routine and its argument are
opaque pointers, modelled as machine words (`0` = `NULL`). -/
structure Thread where
  tid : Int := 0
  state : ThreadState := ThreadState.NOT_STARTED
  start : Nat := 0
  arg : Nat := 0
deriving DecidableEq, Repr

/-- Thread-table state: the table itself plus the static counters
`nthreads` and `next_tid`. -/
structure ThreadTable where
  threads : List Thread
  nthreads : Int
  next_tid : Int
deriving DecidableEq, Repr

/-- `thread_alloc()`: linear scan for the first entry whose state is
`THREAD_NOT_STARTED`; that entry's state is set to `THREAD_STARTED`.
Returns the index of the entry and the updated table (the `nthreads++` is
accounted for by the caller model `thread_create`), or `none` when the scan
finds no free entry. -/
def thread_alloc : List Thread → Option (Nat × List Thread)
  | [] => none
  | t :: ts =>
      if t.state = ThreadState.NOT_STARTED then
        some (0, { t with state := ThreadState.STARTED } :: ts)
      else
        match thread_alloc ts with
        | none => none
        | some (i, ts') => some (i + 1, t :: ts')

/-- `thread_create(tid, start, arg)`.  `start = 0` models a NULL start
routine, on which `KASSERT(start != NULL)` aborts (modelled as `none`).
`wantTid` models whether the caller passed a non-NULL `tid` out-pointer.
The initialization writes every modelled field of the allocated entry
(`tid`, `state`, `arg`, `start`), so it is a plain `List.set` at the
allocated index.  Returns the result value, the new table state, and the
tid stored through the out-pointer (if any). -/
def thread_create (tt : ThreadTable) (start : Nat) (arg : Nat)
    (wantTid : Bool) : Option (Int × ThreadTable × Option Int) :=
  if start = 0 then none
  else
    match thread_alloc tt.threads with
    | none => some (-EAGAIN, tt, none)
    | some (i, ts1) =>
        let _tid := tt.next_tid
        let ts2 := ts1.set i
          { tid := _tid, state := ThreadState.RUNNING,
            start := start, arg := arg }
        some (0, ⟨ts2, tt.nthreads + 1, tt.next_tid + 1⟩,
              if wantTid then some _tid else none)

/-- `thread_get(tid)`: linear scan for the first entry whose `tid` field
equals the argument. -/
def thread_get : List Thread → Int → Option Thread
  | [], _ => none
  | t :: ts, tid => if t.tid = tid then some t else thread_get ts tid

/-- `thread_join(tid, retval)`.  Returns the result value paired with
whether the call blocked on `cond_wait(&joincond[coreid], &lock_tm)` before
returning (which happens exactly when the target was found in state
`THREAD_RUNNING`). -/
def thread_join (ts : List Thread) (tid : Int) : Int × Bool :=
  match thread_get ts tid with
  | none => (-EINVAL, false)
  | some t => (0, if t.state = ThreadState.RUNNING then true else false)

/-- `thread_free(t)`: resets the state of the entry at index `i` to
`THREAD_NOT_STARTED` and decrements `nthreads` (the decrement is accounted
for by the caller model `thread_exit_at`).  The `tid` field of the entry is
left unchanged. -/
def thread_free (ts : List Thread) (i : Nat) : List Thread :=
  match ts.get? i with
  | none => ts
  | some t => ts.set i { t with state := ThreadState.NOT_STARTED }

/-- `thread_exit(retval)` of the thread at index `i` (the calling thread):
sets its state to `THREAD_TERMINATED`, broadcasts `joincond[coreid]` (which
wakes joiners but does not modify the thread table; see `cond_broadcast`),
then calls `thread_free`, which resets the state to `THREAD_NOT_STARTED`
and decrements `nthreads`. -/
def thread_exit_at (tt : ThreadTable) (i : Nat) : ThreadTable :=
  match tt.threads.get? i with
  | none => tt
  | some t =>
      let ts1 := tt.threads.set i { t with state := ThreadState.TERMINATED }
      ⟨thread_free ts1 i, tt.nthreads - 1, tt.next_tid⟩

/-! ### Helper lemmas about the scans -/

/-- `thread_alloc` fails exactly when no entry is in state
`THREAD_NOT_STARTED`. -/
theorem thread_alloc_eq_none_iff (ts : List Thread) :
    thread_alloc ts = none ↔
      ∀ t ∈ ts, t.state ≠ ThreadState.NOT_STARTED := by
  induction ts with
  | nil => simp [thread_alloc]
  | cons t ts ih =>
      by_cases h : t.state = ThreadState.NOT_STARTED
      · simp [thread_alloc, h]
      · simp only [thread_alloc, if_neg h, List.mem_cons]
        cases halloc : thread_alloc ts with
        | none =>
            simp only []
            constructor
            · intro _ u hu
              rcases hu with rfl | hu
              · exact h
              · exact (ih.mp halloc) u hu
            · intro _
              trivial
        | some r =>
            simp only []
            constructor
            · intro hc
              exact absurd hc (by simp)
            · intro hall
              have hnone : thread_alloc ts = none :=
                ih.mpr (fun u hu => hall u (Or.inr hu))
              rw [halloc] at hnone
              exact absurd hnone (by simp)

/-- What a successful `thread_alloc` returns: the first free index `i`,
whose old entry was `THREAD_NOT_STARTED`, updated in place to
`THREAD_STARTED`. -/
theorem thread_alloc_eq_some (ts : List Thread) (i : Nat) (ts' : List Thread)
    (h : thread_alloc ts = some (i, ts')) :
    ∃ t, ts.get? i = some t ∧ t.state = ThreadState.NOT_STARTED ∧
      ts' = ts.set i { t with state := ThreadState.STARTED } := by
  induction ts generalizing i ts' with
  | nil => simp [thread_alloc] at h
  | cons t ts ih =>
      by_cases ht : t.state = ThreadState.NOT_STARTED
      · simp only [thread_alloc, if_pos ht] at h
        obtain ⟨hi, hts⟩ := Prod.mk.injEq .. ▸ Option.some.injEq .. ▸ h
        refine ⟨t, ?_, ht, ?_⟩
        · rw [← hi]; rfl
        · rw [← hi, ← hts]; rfl
      · simp only [thread_alloc, if_neg ht] at h
        cases halloc : thread_alloc ts with
        | none => rw [halloc] at h; exact absurd h (by simp)
        | some r =>
            rw [halloc] at h
            obtain ⟨j, ts₀⟩ := r
            have hj : i = j + 1 ∧ ts' = t :: ts₀ := by
              constructor
              · exact (Prod.mk.injEq .. ▸ Option.some.injEq .. ▸ h).1.symm
              · exact (Prod.mk.injEq .. ▸ Option.some.injEq .. ▸ h).2.symm
            obtain ⟨u, hu, hustate, hset⟩ := ih j ts₀ halloc
            refine ⟨u, ?_, hustate, ?_⟩
            · rw [hj.1]; exact hu
            · rw [hj.1, hj.2, hset]; rfl

/-- `thread_get` fails exactly when no entry carries the requested tid. -/
theorem thread_get_eq_none_iff (ts : List Thread) (tid : Int) :
    thread_get ts tid = none ↔ ∀ t ∈ ts, t.tid ≠ tid := by
  induction ts with
  | nil => simp [thread_get]
  | cons t ts ih =>
      by_cases h : t.tid = tid
      · simp [thread_get, h]
      · simp [thread_get, h, ih]

/-- If index `i` holds an entry with the requested tid and no entry before
index `i` carries that tid, then `thread_get` returns exactly the entry at
`i`. -/
theorem thread_get_first (ts : List Thread) (tid : Int) (i : Nat) (t : Thread)
    (h : ts.get? i = some t) (htid : t.tid = tid)
    (hpre : ∀ u ∈ ts.take i, u.tid ≠ tid) :
    thread_get ts tid = some t := by
  induction ts generalizing i with
  | nil => simp at h
  | cons hd ts ih =>
      cases i with
      | zero =>
          simp only [List.get?] at h
          obtain rfl := Option.some.injEq .. ▸ h
          simp [thread_get, htid]
      | succ k =>
          have hhd : hd.tid ≠ tid := by
            apply hpre
            simp [List.take_succ_cons]
          simp only [thread_get, if_neg hhd]
          exact ih k h (fun u hu => hpre u (by simp [List.take_succ_cons, hu]))

/-- Indices holding an entry are within the list. -/
theorem get?_some_lt {α : Type} {l : List α} {i : Nat} {a : α}
    (h : l.get? i = some a) : i < l.length := by
  by_contra hge
  rw [List.get?_eq_none.mpr (Nat.le_of_not_lt hge)] at h
  cases h

/-- Writing at index `i` does not change the first `i` elements. -/
theorem take_set_self {α : Type} (l : List α) (i : Nat) (a : α) :
    (l.set i a).take i = l.take i := by
  induction l generalizing i with
  | nil => simp
  | cons x xs ih =>
      cases i with
      | zero => simp
      | succ k =>
          show x :: (xs.set k a).take k = x :: xs.take k
          rw [ih]

/-- Characterization of the thread table after `thread_exit` of the thread
at index `i`: the entry keeps its `tid` but its state is reset to
`THREAD_NOT_STARTED`. -/
theorem thread_exit_at_spec (tt : ThreadTable) (i : Nat) (t : Thread)
    (h : tt.threads.get? i = some t) :
    (thread_exit_at tt i).threads =
      tt.threads.set i { t with state := ThreadState.NOT_STARTED } := by
  unfold thread_exit_at
  rw [h]
  show thread_free
      (tt.threads.set i { t with state := ThreadState.TERMINATED }) i = _
  unfold thread_free
  rw [List.get?_set_eq_of_lt _ (get?_some_lt h)]
  show (tt.threads.set i { t with state := ThreadState.TERMINATED }).set i
      { t with state := ThreadState.NOT_STARTED } = _
  rw [List.set_set]

/-! ### Theorems for claims C3, C6, C7 -/

/-- C3: `thread_create` returns `-EAGAIN` if and only if no slot of the
thread table is in state `THREAD_NOT_STARTED` at the time of the call;
otherwise it returns `0`.  In neither case does it block: it is a total
function of the table state (its only suspension-free effects are the table
update and `core_start`). -/
theorem C3_thread_create_eagain_iff (tt : ThreadTable) (start arg : Nat)
    (wantTid : Bool) (h : start ≠ 0) :
    ∃ r tt' out, thread_create tt start arg wantTid = some (r, tt', out) ∧
      ((r = -EAGAIN) ↔ ∀ t ∈ tt.threads, t.state ≠ ThreadState.NOT_STARTED) ∧
      (r = -EAGAIN ∨ r = 0) := by
  unfold thread_create
  rw [if_neg h]
  cases halloc : thread_alloc tt.threads with
  | none =>
      refine ⟨-EAGAIN, tt, none, rfl, ?_, Or.inl rfl⟩
      exact ⟨fun _ => (thread_alloc_eq_none_iff tt.threads).mp halloc,
             fun _ => rfl⟩
  | some r₀ =>
      obtain ⟨i, ts1⟩ := r₀
      obtain ⟨t₀, hget, hstate, _⟩ := thread_alloc_eq_some tt.threads i ts1 halloc
      refine ⟨0, _, _, rfl, ?_, Or.inr rfl⟩
      constructor
      · intro h0
        exact absurd h0 (by norm_num [EAGAIN])
      · intro hall
        exact absurd hstate (hall t₀ (List.get?_mem hget))

/-- Witness for `C3_thread_create_eagain_iff` at a concrete input: a table
with one free slot. -/
theorem C3_thread_create_eagain_iff_witness :
    ∃ r tt' out,
      thread_create ⟨[{ tid := 0, state := ThreadState.RUNNING },
                      { tid := 0, state := ThreadState.NOT_STARTED }], 1, 1⟩
          1 0 true = some (r, tt', out) ∧
      ((r = -EAGAIN) ↔
        ∀ t ∈ [({ tid := 0, state := ThreadState.RUNNING } : Thread),
               { tid := 0, state := ThreadState.NOT_STARTED }],
          t.state ≠ ThreadState.NOT_STARTED) ∧
      (r = -EAGAIN ∨ r = 0) :=
  C3_thread_create_eagain_iff
    ⟨[{ tid := 0, state := ThreadState.RUNNING },
      { tid := 0, state := ThreadState.NOT_STARTED }], 1, 1⟩ 1 0 true
    (by decide)

/-- C6: `thread_join(tid)` returns `-EINVAL` if and only if no entry of the
thread table has a `tid` field equal to the given tid; if an entry is found
(`thread_get` succeeds), it returns `0` and blocks on the per-core join
condition variable exactly when that entry's state is `THREAD_RUNNING`. -/
theorem C6_thread_join_einval_iff (ts : List Thread) (tid : Int) :
    ((thread_join ts tid).1 = -EINVAL ↔ ∀ t ∈ ts, t.tid ≠ tid) ∧
    (∀ t, thread_get ts tid = some t →
      (thread_join ts tid).1 = 0 ∧
        ((thread_join ts tid).2 = true ↔ t.state = ThreadState.RUNNING)) := by
  constructor
  · cases hget : thread_get ts tid with
    | none =>
        simp only [thread_join, hget]
        exact ⟨fun _ => (thread_get_eq_none_iff ts tid).mp hget,
               fun _ => trivial⟩
    | some t =>
        simp only [thread_join, hget]
        constructor
        · intro h0
          exact absurd h0 (by norm_num [EINVAL])
        · intro hall
          have hnone : thread_get ts tid = none :=
            (thread_get_eq_none_iff ts tid).mpr hall
          rw [hget] at hnone
          exact absurd hnone (by simp)
  · intro t hget
    simp only [thread_join, hget]
    refine ⟨trivial, ?_⟩
    by_cases hs : t.state = ThreadState.RUNNING
    · simp [hs]
    · simp [hs]

/-- Witness for `C6_thread_join_einval_iff` at a concrete input: a table
holding a terminated thread with tid 5; joining it succeeds without
blocking, and joining the absent tid 7 fails with `-EINVAL`. -/
theorem C6_thread_join_einval_iff_witness :
    ((thread_join [({ tid := 5, state := ThreadState.TERMINATED } : Thread)] 7).1
        = -EINVAL ↔
      ∀ t ∈ [({ tid := 5, state := ThreadState.TERMINATED } : Thread)], t.tid ≠ 7) ∧
    ((thread_join [({ tid := 5, state := ThreadState.TERMINATED } : Thread)] 5).1 = 0 ∧
      ((thread_join [({ tid := 5, state := ThreadState.TERMINATED } : Thread)] 5).2
          = true ↔
        ({ tid := 5, state := ThreadState.TERMINATED } : Thread).state
          = ThreadState.RUNNING)) :=
  ⟨(C6_thread_join_einval_iff
      [({ tid := 5, state := ThreadState.TERMINATED } : Thread)] 7).1,
   (C6_thread_join_einval_iff
      [({ tid := 5, state := ThreadState.TERMINATED } : Thread)] 5).2
      { tid := 5, state := ThreadState.TERMINATED } (by decide)⟩

/-- C7: a thread that has exited via `thread_exit` can later be joined
without blocking: if the entry at index `i` carries the target tid and no
earlier entry carries it, then after `thread_exit` of that thread,
`thread_join` on the tid returns `0` and does not block (the freed entry
keeps its `tid` field, so the linear search still finds it, in state
`THREAD_NOT_STARTED`). -/
theorem C7_join_after_exit (tt : ThreadTable) (i : Nat) (t : Thread) (tid : Int)
    (h1 : tt.threads.get? i = some t) (h2 : t.tid = tid)
    (hpre : ∀ u ∈ tt.threads.take i, u.tid ≠ tid) :
    thread_join (thread_exit_at tt i).threads tid = (0, false) := by
  rw [thread_exit_at_spec tt i t h1]
  have hlt : i < tt.threads.length := get?_some_lt h1
  have hget : (tt.threads.set i
      { t with state := ThreadState.NOT_STARTED }).get? i =
      some { t with state := ThreadState.NOT_STARTED } :=
    List.get?_set_eq_of_lt _ hlt
  have hfound : thread_get
      (tt.threads.set i { t with state := ThreadState.NOT_STARTED }) tid =
      some { t with state := ThreadState.NOT_STARTED } := by
    refine thread_get_first _ tid i _ hget h2 ?_
    intro u hu
    refine hpre u ?_
    rwa [take_set_self] at hu
  simp [thread_join, hfound]

/-- Witness for `C7_join_after_exit` at a concrete input: thread with tid 5
at index 1 exits; joining tid 5 afterwards returns `(0, no block)`. -/
theorem C7_join_after_exit_witness :
    thread_join
      (thread_exit_at
        ⟨[{ tid := 0, state := ThreadState.RUNNING },
          { tid := 5, state := ThreadState.RUNNING }], 2, 6⟩ 1).threads 5 =
      (0, false) :=
  C7_join_after_exit
    ⟨[{ tid := 0, state := ThreadState.RUNNING },
      { tid := 5, state := ThreadState.RUNNING }], 2, 6⟩ 1
    { tid := 5, state := ThreadState.RUNNING } 5 rfl rfl (by decide)

/-! ## Process table (`src/src/kernel/pm/process.c`)

`static struct process processes[PROCESS_MAX]` becomes a `List Process`;
`PROCESS_MAX` is the length of the list.  `kernel = &processes[KERNEL_PROCESS]`
is the entry at index 0 (`KERNEL_PROCESS` is 0).  The collaborators
`vmem_create` (address-space creation) and `thread_create` (the low-level
thread module of this codebase version, not part of the excerpt's thread
table above) are modelled as oracle arguments giving their results;
`vmem_destroy` and the `thread_free_all` call inside `process_free` are side
effects recorded as events / returned arguments. -/

/-- One entry of the process table.  `vmem` is the opaque address-space
handle (`none` = `VMEM_NULL`), `image` the binary-image pointer
(`none` = `NULL`). -/
structure Process where
  pid : Int := 0
  tid : Int := 0
  active : Bool := false
  vmem : Option Nat := none
  image : Option Nat := none
deriving DecidableEq, Repr

/-- `process_alloc()`: linear scan for the first entry whose `active` flag is
clear; that entry's flag is set.  Returns the index and the updated table. -/
def process_alloc : List Process → Option (Nat × List Process)
  | [] => none
  | p :: ps =>
      if p.active = false then some (0, { p with active := true } :: ps)
      else
        match process_alloc ps with
        | none => none
        | some (i, ps') => some (i + 1, p :: ps')

/-- `process_free(process)`: `KASSERT(process != kernel)` aborts when the
target is the kernel entry (index 0, modelled as `none`); otherwise the
entry's `pid` is zeroed, its `active` flag cleared and its `image` pointer
nulled, and then `thread_free_all(process->pid)` is called — reading the
`pid` field *after* it was zeroed.  Returns the updated table paired with
the argument passed to `thread_free_all`. -/
def process_free (ps : List Process) (i : Nat) : Option (List Process × Int) :=
  if i = 0 then none
  else
    match ps.get? i with
    | none => none
    | some p =>
        let p1 := { p with pid := 0 }
        let p2 := { p1 with active := false, image := none }
        some (ps.set i p2, p1.pid)

/-- `process_exit()`: resolves the current process (index `cur`) and calls
`process_free` on it (then yields; the yield does not touch the table). -/
def process_exit (ps : List Process) (cur : Nat) : Option (List Process × Int) :=
  process_free ps cur

/-- Rollback actions of `process_create`'s error paths, in call order. -/
inductive RollbackEv where
  | vmemDestroy
  | slotFree
deriving DecidableEq, Repr

/-- Result of `process_create`: the table, the `next_pid` static counter,
the returned value, and the rollback actions performed (in order). -/
structure PCreateRes where
  procs : List Process
  next_pid : Int
  ret : Int
  rollback : List RollbackEv
deriving DecidableEq, Repr

/-- `process_create(image)`.  `vmemRes` is the result of the external
`vmem_create()` (`none` = `VMEM_NULL`); `tidRes` is the result of the
external `thread_create(pid, true)` (negative = failure).  The
`interrupt_forge_stack` / `context_create` calls on the success path are
`KASSERT`ed by the source (failure is a kernel panic, not a return path),
so they are modelled as succeeding.  Error paths: `error0` (no free slot)
returns `-1` directly; `error1` (vmem failure) frees the slot; `error2`
(thread failure) destroys the vmem and then frees the slot. -/
def process_create (procs : List Process) (next_pid : Int) (image : Nat)
    (vmemRes : Option Nat) (tidRes : Int) : Option PCreateRes :=
  match process_alloc procs with
  | none => some ⟨procs, next_pid, -1, []⟩
  | some (i, procs1) =>
      match vmemRes with
      | none =>
          match process_free procs1 i with
          | none => none
          | some (procs2, _) =>
              some ⟨procs2, next_pid, -1, [RollbackEv.slotFree]⟩
      | some vm =>
          let npid := next_pid + 1
          match procs1.get? i with
          | none => none
          | some q =>
              let procs2 := procs1.set i
                { q with pid := npid, image := some image, vmem := some vm }
              if tidRes < 0 then
                match process_free procs2 i with
                | none => none
                | some (procs3, _) =>
                    some ⟨procs3, npid, -1,
                          [RollbackEv.vmemDestroy, RollbackEv.slotFree]⟩
              else
                match procs2.get? i with
                | none => none
                | some q2 =>
                    some ⟨procs2.set i { q2 with tid := tidRes },
                          npid, npid, []⟩

/-- The `WITHIN(x, a, b)` macro: `a <= x && x < b`. -/
def WITHIN (x a b : Int) : Bool :=
  decide (a ≤ x) && decide (x < b)

/-- `process_is_valid(pid)`: bounds-check against `[0, PROCESS_MAX)`, then
check the `active` flag. -/
def process_is_valid (ps : List Process) (pid : Int) : Int :=
  if WITHIN pid 0 ps.length = false then -EINVAL
  else
    match ps.get? pid.toNat with
    | none => -EINVAL
    | some p => if p.active = false then -EINVAL else 0

/-! ### Helper lemmas about the process-table scans -/

/-- `process_alloc` fails exactly when every entry is active. -/
theorem process_alloc_eq_none_iff (ps : List Process) :
    process_alloc ps = none ↔ ∀ p ∈ ps, p.active = true := by
  induction ps with
  | nil => simp [process_alloc]
  | cons p ps ih =>
      by_cases h : p.active = false
      · simp [process_alloc, h]
      · rw [Bool.not_eq_false] at h
        simp only [process_alloc, h, List.mem_cons]
        cases halloc : process_alloc ps with
        | none =>
            simp only []
            constructor
            · intro _ u hu
              rcases hu with rfl | hu
              · exact h
              · exact (ih.mp halloc) u hu
            · intro _
              simp
        | some r =>
            simp only []
            constructor
            · intro hc
              exact absurd hc (by simp)
            · intro hall
              have hnone : process_alloc ps = none :=
                ih.mpr (fun u hu => hall u (Or.inr hu))
              rw [halloc] at hnone
              exact absurd hnone (by simp)

/-- What a successful `process_alloc` returns: the first inactive index `i`,
updated in place to active. -/
theorem process_alloc_eq_some (ps : List Process) (i : Nat) (ps' : List Process)
    (h : process_alloc ps = some (i, ps')) :
    ∃ p, ps.get? i = some p ∧ p.active = false ∧
      ps' = ps.set i { p with active := true } := by
  induction ps generalizing i ps' with
  | nil => simp [process_alloc] at h
  | cons p ps ih =>
      by_cases hp : p.active = false
      · simp only [process_alloc, if_pos hp] at h
        obtain ⟨hi, hps⟩ := Prod.mk.injEq .. ▸ Option.some.injEq .. ▸ h
        refine ⟨p, ?_, hp, ?_⟩
        · rw [← hi]; rfl
        · rw [← hi, ← hps]; rfl
      · simp only [process_alloc, if_neg hp] at h
        cases halloc : process_alloc ps with
        | none => rw [halloc] at h; exact absurd h (by simp)
        | some r =>
            rw [halloc] at h
            obtain ⟨j, ps₀⟩ := r
            have hj : i = j + 1 ∧ ps' = p :: ps₀ := by
              constructor
              · exact (Prod.mk.injEq .. ▸ Option.some.injEq .. ▸ h).1.symm
              · exact (Prod.mk.injEq .. ▸ Option.some.injEq .. ▸ h).2.symm
            obtain ⟨u, hu, huact, hset⟩ := ih j ps₀ halloc
            refine ⟨u, ?_, huact, ?_⟩
            · rw [hj.1]; exact hu
            · rw [hj.1, hj.2, hset]; rfl

/-- Explicit form of a successful `process_free`. -/
theorem process_free_spec (ps : List Process) (i : Nat) (p : Process)
    (h0 : i ≠ 0) (hget : ps.get? i = some p) :
    process_free ps i =
      some (ps.set i { p with pid := 0, active := false, image := none },
            0) := by
  unfold process_free
  rw [if_neg h0, hget]

/-- Overwriting an entry with one of equal `active` flag preserves the list
of `active` flags. -/
theorem map_active_set (ps : List Process) (i : Nat) (p x : Process)
    (hget : ps.get? i = some p) (hact : x.active = p.active) :
    (ps.set i x).map Process.active = ps.map Process.active := by
  induction ps generalizing i with
  | nil => simp at hget
  | cons hd ts ih =>
      cases i with
      | zero =>
          simp only [List.get?] at hget
          obtain rfl := Option.some.injEq .. ▸ hget
          show x.active :: ts.map Process.active = _
          rw [hact]
          rfl
      | succ k =>
          show hd.active :: (ts.set k x).map Process.active =
            hd.active :: ts.map Process.active
          rw [ih k hget]

/-- `process_free` of the kernel entry (index 0) trips the
`KASSERT(process != kernel)`. -/
theorem process_free_zero (ps : List Process) : process_free ps 0 = none := by
  unfold process_free
  rw [if_pos rfl]

/-- `process_free` of an out-of-range index (no entry). -/
theorem process_free_get_none (ps : List Process) (i : Nat)
    (hget : ps.get? i = none) : process_free ps i = none := by
  unfold process_free
  by_cases h0 : i = 0
  · rw [if_pos h0]
  · rw [if_neg h0, hget]

/-! ### Theorems for claims C2, C8, C10 -/

/-- C10: `process_free` zeroes the process's `pid` field *before* invoking
`thread_free_all(process->pid)`, so whenever it runs (on a non-kernel
process) the argument passed to `thread_free_all` is `0` — the kernel
process id — rather than the original pid; and the same holds for every
`process_exit`, which delegates to `process_free`. -/
theorem C10_thread_free_all_gets_zero (ps : List Process) (i cur : Nat) :
    (∀ r, process_free ps i = some r → r.2 = 0) ∧
    (∀ r, process_exit ps cur = some r → r.2 = 0) := by
  have key : ∀ j r, process_free ps j = some r → r.2 = 0 := by
    intro j r h
    by_cases h0 : j = 0
    · subst h0
      rw [process_free_zero] at h
      cases h
    · cases hget : ps.get? j with
      | none =>
          rw [process_free_get_none ps j hget] at h
          cases h
      | some p =>
          rw [process_free_spec ps j p h0 hget] at h
          injection h with h'
          rw [← h']
  exact ⟨key i, fun r h => key cur r h⟩

/-- Witness for `C10_thread_free_all_gets_zero` at a concrete input: freeing
the active process with pid 7 at index 1 passes `0` to `thread_free_all`. -/
theorem C10_thread_free_all_gets_zero_witness :
    (([({ pid := 0, active := true } : Process),
       ({ pid := 0, tid := 3, active := false, vmem := some 1,
          image := none } : Process)] : List Process),
     (0 : Int)).2 = 0 :=
  (C10_thread_free_all_gets_zero
      [{ pid := 0, active := true },
       { pid := 7, tid := 3, active := true, vmem := some 1,
         image := some 2 }] 1 1).1
    ([{ pid := 0, active := true },
      { pid := 0, tid := 3, active := false, vmem := some 1, image := none }],
     0)
    rfl

/-- C8: `process_is_valid(pid)` returns a failure (`-EINVAL`) for every pid
outside `[0, PROCESS_MAX)` and for every pid whose table slot is inactive,
and returns success (`0`) exactly for pids whose slot is active. -/
theorem C8_process_is_valid_iff (ps : List Process) (pid : Int) :
    (process_is_valid ps pid = 0 ↔
      (0 ≤ pid ∧ pid < (ps.length : Int) ∧
        ∃ p, ps.get? pid.toNat = some p ∧ p.active = true)) ∧
    (process_is_valid ps pid = 0 ∨ process_is_valid ps pid = -EINVAL) := by
  by_cases h0 : 0 ≤ pid
  · by_cases h1 : pid < (ps.length : Int)
    · have hw : WITHIN pid 0 (ps.length : Int) = true := by
        simp [WITHIN, h0, h1]
      have hlt : pid.toNat < ps.length := by omega
      cases hget : ps.get? pid.toNat with
      | none =>
          have hle := List.get?_eq_none.mp hget
          omega
      | some p =>
          by_cases hact : p.active = false
          · have hval : process_is_valid ps pid = -EINVAL := by
              unfold process_is_valid
              rw [hw, hget]
              simp [hact]
            rw [hval]
            refine ⟨⟨?_, ?_⟩, Or.inr rfl⟩
            · intro hc
              exact absurd hc (by norm_num [EINVAL])
            · rintro ⟨-, -, p', hp', hact'⟩
              obtain rfl := Option.some.injEq .. ▸ hp'
              rw [hact] at hact'
              cases hact'
          · rw [Bool.not_eq_false] at hact
            have hval : process_is_valid ps pid = 0 := by
              unfold process_is_valid
              rw [hw, hget]
              simp [hact]
            rw [hval]
            exact ⟨⟨fun _ => ⟨h0, h1, p, rfl, hact⟩, fun _ => rfl⟩,
                   Or.inl rfl⟩
    · have hw : WITHIN pid 0 (ps.length : Int) = false := by
        simp [WITHIN, h1]
      have hval : process_is_valid ps pid = -EINVAL := by
        unfold process_is_valid
        rw [hw]
        exact if_pos rfl
      rw [hval]
      refine ⟨⟨?_, ?_⟩, Or.inr rfl⟩
      · intro hc
        exact absurd hc (by norm_num [EINVAL])
      · rintro ⟨-, hc, -⟩
        exact absurd hc h1
  · have hw : WITHIN pid 0 (ps.length : Int) = false := by
      simp [WITHIN, h0]
    have hval : process_is_valid ps pid = -EINVAL := by
      unfold process_is_valid
      rw [hw]
      exact if_pos rfl
    rw [hval]
    refine ⟨⟨?_, ?_⟩, Or.inr rfl⟩
    · intro hc
      exact absurd hc (by norm_num [EINVAL])
    · rintro ⟨hc, -, -⟩
      exact absurd hc h0

/-- C2: every failure of `process_create` (no free slot, address-space
creation failure, or main-thread creation failure) returns the sentinel
`-1`, restores the `active` flags of the process table to exactly what they
were before the call, and performs, per failure mode, exactly the rollback
the unwind order prescribes: no rollback when no slot was allocated, only
the slot free when the address-space creation failed, and — on the
main-thread-creation failure path — the address space is destroyed *and*
destroyed strictly before the process slot is freed (rollback event list
`[RollbackEv.vmemDestroy, RollbackEv.slotFree]`).  The kernel entry
(index 0) being active is the standing invariant that keeps
`process_free`'s `KASSERT(process != kernel)` from firing. -/
theorem C2_process_create_unwinds (procs : List Process) (next_pid : Int)
    (image : Nat) (vmemRes : Option Nat) (tidRes : Int)
    (hk : ∃ k, procs.get? 0 = some k ∧ k.active = true)
    (hfail : (∀ p ∈ procs, p.active = true) ∨ vmemRes = none ∨ tidRes < 0) :
    ∃ res, process_create procs next_pid image vmemRes tidRes = some res ∧
      res.ret = -1 ∧
      res.procs.map Process.active = procs.map Process.active ∧
      (process_alloc procs = none → res.rollback = []) ∧
      (∀ i ps1, process_alloc procs = some (i, ps1) → vmemRes = none →
        res.rollback = [RollbackEv.slotFree]) ∧
      (∀ i ps1 vm, process_alloc procs = some (i, ps1) →
        vmemRes = some vm → tidRes < 0 →
        res.rollback = [RollbackEv.vmemDestroy, RollbackEv.slotFree]) := by
  obtain ⟨k, hk0, hkact⟩ := hk
  cases halloc : process_alloc procs with
  | none =>
      refine ⟨⟨procs, next_pid, -1, []⟩, ?_, rfl, rfl, fun _ => rfl, ?_, ?_⟩
      · unfold process_create
        rw [halloc]
      · intro i ps1 hc
        exact absurd hc (by simp)
      · intro i ps1 vm hc
        exact absurd hc (by simp)
  | some r₀ =>
      obtain ⟨i, procs1⟩ := r₀
      obtain ⟨p, hget, hpact, hset⟩ := process_alloc_eq_some procs i procs1 halloc
      have hi0 : i ≠ 0 := by
        intro hi
        subst hi
        rw [hget] at hk0
        obtain rfl := Option.some.injEq .. ▸ hk0
        rw [hkact] at hpact
        cases hpact
      have hlt : i < procs.length := get?_some_lt hget
      have hlt1 : i < procs1.length := by
        rw [hset, List.length_set]
        exact hlt
      have hget1 : procs1.get? i = some { p with active := true } := by
        rw [hset]
        exact List.get?_set_eq_of_lt _ hlt
      cases hv : vmemRes with
      | none =>
          have hfree := process_free_spec procs1 i { p with active := true }
            hi0 hget1
          refine ⟨⟨procs1.set i
                    { pid := 0, tid := p.tid, active := false,
                      vmem := p.vmem, image := none },
                   next_pid, -1, [RollbackEv.slotFree]⟩,
                  ?_, rfl, ?_, ?_, ?_, ?_⟩
          · simp only [process_create, halloc, hfree]
          · rw [hset, List.set_set]
            exact map_active_set procs i p _ hget hpact.symm
          · intro hc
            exact absurd hc (by simp)
          · intro i' ps1' hc hv
            rfl
          · intro i' ps1' vm hc hv
            exact absurd hv (by simp)
      | some vm =>
          by_cases htid : tidRes < 0
          · have hget2 : (procs1.set i
                { pid := next_pid + 1, tid := p.tid, active := true,
                  vmem := some vm, image := some image }).get? i =
                some { pid := next_pid + 1, tid := p.tid, active := true,
                       vmem := some vm, image := some image } :=
              List.get?_set_eq_of_lt _ hlt1
            have hfree := process_free_spec
              (procs1.set i
                { pid := next_pid + 1, tid := p.tid, active := true,
                  vmem := some vm, image := some image })
              i _ hi0 hget2
            refine ⟨⟨(procs1.set i
                      { pid := next_pid + 1, tid := p.tid, active := true,
                        vmem := some vm, image := some image }).set i
                      { pid := 0, tid := p.tid, active := false,
                        vmem := some vm, image := none },
                     next_pid + 1, -1,
                     [RollbackEv.vmemDestroy, RollbackEv.slotFree]⟩,
                   ?_, rfl, ?_, ?_, ?_, ?_⟩
            · simp only [process_create, halloc, hget1, if_pos htid, hfree]
            · rw [List.set_set, hset, List.set_set]
              exact map_active_set procs i p _ hget hpact.symm
            · intro hc
              exact absurd hc (by simp)
            · intro i' ps1' hc hv
              exact absurd hv (by simp)
            · intro i' ps1' vm' hc hv htid'
              rfl
          · exfalso
            rcases hfail with hall | hnone | htid'
            · rw [hall p (List.get?_mem hget)] at hpact
              cases hpact
            · rw [hv] at hnone
              cases hnone
            · exact htid htid'

/-- Witness for `C2_process_create_unwinds` at a concrete input: a
main-thread-creation failure (`tidRes = -3`) after a successful
address-space creation, with one free slot next to the kernel entry. -/
theorem C2_process_create_unwinds_witness :
    ∃ res, process_create
        [{ pid := 1, active := true }, { active := false }] 1 9 (some 5)
        (-3) = some res ∧
      res.ret = -1 ∧
      res.procs.map Process.active =
        ([{ pid := 1, active := true }, { active := false }] :
          List Process).map Process.active ∧
      (process_alloc [{ pid := 1, active := true }, { active := false }] =
          none → res.rollback = []) ∧
      (∀ i ps1,
        process_alloc [{ pid := 1, active := true }, { active := false }] =
          some (i, ps1) → (some 5 : Option Nat) = none →
        res.rollback = [RollbackEv.slotFree]) ∧
      (∀ i ps1 vm,
        process_alloc [{ pid := 1, active := true }, { active := false }] =
          some (i, ps1) → (some 5 : Option Nat) = some vm → (-3 : Int) < 0 →
        res.rollback = [RollbackEv.vmemDestroy, RollbackEv.slotFree]) :=
  C2_process_create_unwinds
    [{ pid := 1, active := true }, { active := false }] 1 9 (some 5) (-3)
    ⟨{ pid := 1, active := true }, rfl, rfl⟩
    (Or.inr (Or.inr (by norm_num)))

/-! ## User-level mutex (`src/src/libs/nanvix/mutex.c`)

Mutual exclusion is decided by the `locked` flag, which is only read and
written inside `spinlock_lock(&m->lock)` / `spinlock_unlock(&m->lock)`
sections.  Each such section becomes one atomic transition of a labelled
step relation over the mutex state plus the control location of every
caller.  The sleep-mode (`__NANVIX_MUTEX_SLEEP`) queue of waiting tids is
manipulated inside the same sections but never touches `locked`, and
`sleep()`/`wakeup()` only decide *which* caller steps next, so the `locked`
protocol — and hence mutual exclusion — is identical in both modes; the
model quantifies over all interleavings of these transitions. -/

/-- Control location of one caller of `nanvix_mutex_lock`/`unlock`:
outside any call (`idle`), inside the `do { ... } while` retry loop of
`nanvix_mutex_lock` (`trying`), or holding the mutex between a successful
`lock` and the matching `unlock` (`held`). -/
inductive LSt where
  | idle
  | trying
  | held
deriving DecidableEq, Repr

/-- Global configuration: the mutex's `locked` flag and the control
location of each caller. -/
structure MConfig where
  locked : Bool
  pcs : List LSt
deriving DecidableEq, Repr

/-- One atomic transition of the mutex protocol, by caller `i`:
`enter` = caller invokes `nanvix_mutex_lock` (reaches the retry loop);
`acquire` = the spinlock-protected section observes `!m->locked`, sets
`m->locked = true` and breaks out of the loop;
`spin` = the section observes `m->locked` and retries (sleeping first in
sleep mode — no shared-state change either way);
`release` = `nanvix_mutex_unlock`'s section sets `m->locked = false`. -/
inductive MStep : MConfig → MConfig → Prop
  | enter (c : MConfig) (i : Nat) (h : c.pcs.get? i = some LSt.idle) :
      MStep c ⟨c.locked, c.pcs.set i LSt.trying⟩
  | acquire (c : MConfig) (i : Nat) (h : c.pcs.get? i = some LSt.trying)
      (hl : c.locked = false) :
      MStep c ⟨true, c.pcs.set i LSt.held⟩
  | spin (c : MConfig) (i : Nat) (h : c.pcs.get? i = some LSt.trying)
      (hl : c.locked = true) :
      MStep c c
  | release (c : MConfig) (i : Nat) (h : c.pcs.get? i = some LSt.held) :
      MStep c ⟨false, c.pcs.set i LSt.idle⟩

/-- Initial configuration for `n` callers: mutex initialized by
`nanvix_mutex_init` (`locked = false`), every caller outside. -/
def MInit (n : Nat) : MConfig :=
  ⟨false, List.replicate n LSt.idle⟩

/-- Configurations reachable by some interleaving of the callers. -/
def MReachable (n : Nat) (c : MConfig) : Prop :=
  Relation.ReflTransGen MStep (MInit n) c

/-- Inductive invariant: when the flag is clear nobody holds the mutex, and
no two distinct callers hold it simultaneously. -/
def MutexInv (c : MConfig) : Prop :=
  (c.locked = false → ∀ i, c.pcs.get? i ≠ some LSt.held) ∧
  (∀ i j, i ≠ j → c.pcs.get? i = some LSt.held →
    c.pcs.get? j = some LSt.held → False)

/-- The initial configuration satisfies the invariant. -/
theorem MutexInv_init (n : Nat) : MutexInv (MInit n) := by
  have hrep : ∀ i, (List.replicate n LSt.idle).get? i ≠ some LSt.held := by
    intro i h
    have hmem := List.eq_of_mem_replicate (List.get?_mem h)
    exact LSt.noConfusion hmem
  exact ⟨fun _ i => hrep i, fun i j _ hi _ => hrep i hi⟩

/-- The invariant is preserved by every transition. -/
theorem MutexInv_step {c c' : MConfig} (hstep : MStep c c')
    (hinv : MutexInv c) : MutexInv c' := by
  obtain ⟨hnl, hpair⟩ := hinv
  cases hstep with
  | enter i h =>
      constructor
      · intro hl j hj
        by_cases hij : i = j
        · subst hij
          rw [List.get?_set_eq_of_lt _ (get?_some_lt h)] at hj
          exact LSt.noConfusion (Option.some.injEq .. ▸ hj)
        · rw [List.get?_set_ne _ _ hij] at hj
          exact hnl hl j hj
      · intro a b hab ha hb
        by_cases hia : i = a
        · subst hia
          rw [List.get?_set_eq_of_lt _ (get?_some_lt h)] at ha
          exact LSt.noConfusion (Option.some.injEq .. ▸ ha)
        · rw [List.get?_set_ne _ _ hia] at ha
          by_cases hib : i = b
          · subst hib
            rw [List.get?_set_eq_of_lt _ (get?_some_lt h)] at hb
            exact LSt.noConfusion (Option.some.injEq .. ▸ hb)
          · rw [List.get?_set_ne _ _ hib] at hb
            exact hpair a b hab ha hb
  | acquire i h hl =>
      constructor
      · intro hl'
        exact absurd hl' (by simp)
      · intro a b hab ha hb
        by_cases hia : i = a
        · subst hia
          by_cases hib : i = b
          · exact hab (hib ▸ rfl)
          · rw [List.get?_set_ne _ _ hib] at hb
            exact hnl hl b hb
        · rw [List.get?_set_ne _ _ hia] at ha
          exact hnl hl a ha
  | spin i h hl =>
      exact ⟨hnl, hpair⟩
  | release i h =>
      have hnone : ∀ j, (c.pcs.set i LSt.idle).get? j ≠ some LSt.held := by
        intro j hj
        by_cases hij : i = j
        · subst hij
          rw [List.get?_set_eq_of_lt _ (get?_some_lt h)] at hj
          exact LSt.noConfusion (Option.some.injEq .. ▸ hj)
        · rw [List.get?_set_ne _ _ hij] at hj
          exact hpair i j hij h hj
      exact ⟨fun _ j => hnone j, fun a b _ ha _ => hnone a ha⟩

/-- Every reachable configuration satisfies the invariant. -/
theorem MutexInv_reachable (n : Nat) (c : MConfig) (h : MReachable n c) :
    MutexInv c := by
  induction h with
  | refl => exact MutexInv_init n
  | tail hsteps hstep ih => exact MutexInv_step hstep ih

/-- C9: for all interleavings of concurrent lock/unlock pairs on one mutex
(all configurations reachable from the initial one), no two distinct
callers hold the mutex at the same instant. -/
theorem C9_mutex_mutual_exclusion (n : Nat) (c : MConfig)
    (hreach : MReachable n c) (i j : Nat) (hij : i ≠ j) :
    ¬ (c.pcs.get? i = some LSt.held ∧ c.pcs.get? j = some LSt.held) := by
  intro hc
  exact (MutexInv_reachable n c hreach).2 i j hij hc.1 hc.2

/-- Witness for `C9_mutex_mutual_exclusion` at a concrete reachable
configuration: two callers, caller 0 enters and acquires the mutex. -/
theorem C9_mutex_mutual_exclusion_witness :
    ¬ ((⟨true, [LSt.held, LSt.idle]⟩ : MConfig).pcs.get? 0 =
         some LSt.held ∧
       (⟨true, [LSt.held, LSt.idle]⟩ : MConfig).pcs.get? 1 =
         some LSt.held) :=
  C9_mutex_mutual_exclusion 2 ⟨true, [LSt.held, LSt.idle]⟩
    (Relation.ReflTransGen.tail
      (Relation.ReflTransGen.tail Relation.ReflTransGen.refl
        (MStep.enter (MInit 2) 0 rfl))
      (MStep.acquire ⟨false, (MInit 2).pcs.set 0 LSt.trying⟩ 0 rfl rfl))
    0 1 (by decide)
